import Mathlib

/-!
Shallow embedding of the feedback-report core of the repository
(report parser in src/code/src/frontend/lib/parser.ts, retry wrapper,
score extractor, and the per-stage retry budgets), together with
theorems settling the specification claims.

Strings are modelled as lists of characters; the JavaScript regular
expressions of the source are transliterated into explicit scanning
functions with the same leftmost-match and greedy/lazy backtracking
behaviour.
-/

namespace SalesCoach

/-- Character class of the JavaScript whitespace escape used by the
source regular expressions and by String.prototype.trim. -/
def isJsSpace (c : Char) : Bool :=
  c == ' ' || c == '\t' || c == '\n' || c == '\r' ||
  c.toNat == 11 || c.toNat == 12 || c.toNat == 0xa0 || c.toNat == 0x1680 ||
  (0x2000 ≤ c.toNat && c.toNat ≤ 0x200a) ||
  c.toNat == 0x2028 || c.toNat == 0x2029 || c.toNat == 0x202f ||
  c.toNat == 0x205f || c.toNat == 0x3000 || c.toNat == 0xfeff

/-- Word characters as in the JavaScript regex word class. -/
def isWordChar (c : Char) : Bool :=
  ('a' ≤ c && c ≤ 'z') || ('A' ≤ c && c ≤ 'Z') || c.isDigit || c == '_'

/-- Trim JavaScript whitespace from both ends (String.prototype.trim). -/
def trimL (l : List Char) : List Char :=
  ((l.dropWhile isJsSpace).reverse.dropWhile isJsSpace).reverse

/-- Case-insensitive character comparison used by regexes with the i flag. -/
def ciEq (a b : Char) : Bool := a.toLower == b.toLower

/-- Case-insensitive test that the pattern occurs at the head of the text. -/
def ciStarts : List Char → List Char → Bool
  | [], _ => true
  | _ :: _, [] => false
  | p :: ps, c :: cs => ciEq p c && ciStarts ps cs

/-- Substring containment (String.prototype.includes, case-sensitive). -/
def containsSub (needle : List Char) : List Char → Bool
  | [] => needle.isEmpty
  | c :: rest => needle.isPrefixOf (c :: rest) || containsSub needle rest

/-- Numeric value of a run of decimal digits. -/
def digitsToNat (l : List Char) : Nat :=
  l.foldl (fun n c => n * 10 + (c.toNat - 48)) 0

/-- Split a text at newline characters (String.prototype.split). -/
def splitNl : List Char → List (List Char)
  | [] => [[]]
  | '\n' :: rest => [] :: splitNl rest
  | c :: rest =>
    match splitNl rest with
    | [] => [[c]]
    | h :: t => (c :: h) :: t

def listToStr (l : List Char) : String := ⟨l⟩

/-- One parsed score row of the report. -/
structure ScoreEntry where
  category : String
  score : Nat
deriving DecidableEq, Repr

/-- One transcript segment of the report. -/
structure Segment where
  title : String
  content : String
deriving DecidableEq, Repr

/-- Typed result of the report parser. -/
structure ParsedResult where
  summary : Option String
  feedback : Option String
  suggestions : Option String
  segments : List Segment
  scores : List ScoreEntry
deriving DecidableEq, Repr

/-- Built-in default score table of parser.ts. -/
def defaultScores : List ScoreEntry :=
  [ { category := "Empathy", score := 85 },
    { category := "Clarity", score := 90 },
    { category := "Flexibility", score := 80 },
    { category := "Assertiveness", score := 75 },
    { category := "Active Listening", score := 88 },
    { category := "Conflict Management", score := 99 } ]

/-- Alias table CATEGORY_ALIASES of parser.ts, in source order. -/
def categoryAliases : List (String × String) :=
  [ ("empathy", "Empathy"),
    ("clarity", "Clarity"),
    ("openmindness", "Flexibility"),
    ("openmindedness", "Flexibility"),
    ("open mindness", "Flexibility"),
    ("open mind", "Flexibility"),
    ("flexibility", "Flexibility"),
    ("flexible", "Flexibility"),
    ("assertiveness", "Assertiveness"),
    ("persuasion", "Persuasion"),
    ("activelistening", "Active Listening"),
    ("active listening", "Active Listening"),
    ("objectionhandling", "Objection Handling"),
    ("objection handling", "Objection Handling"),
    ("closingability", "Closing Ability"),
    ("closing ability", "Closing Ability"),
    ("conflictmanagement", "Conflict Management"),
    ("conflict management", "Conflict Management") ]

def aliasLookup (k : String) : Option String :=
  (categoryAliases.find? (fun p => p.1 == k)).map (·.2)

/-- Normalisation applied to a raw category token before the alias lookup:
lower-case and strip whitespace, hyphens and underscores. -/
def normKeyL (l : List Char) : List Char :=
  (l.map Char.toLower).filter (fun c => !(isJsSpace c || c == '-' || c == '_'))

def normKey (l : List Char) : String := listToStr (normKeyL l)

/-- Chars of the text before the first occurrence of a double hash,
or the whole text when there is none.  This is both the lookahead
boundary of the section regexes and the first piece of a split at
a double hash. -/
def capUntilH : List Char → List Char
  | [] => []
  | '#' :: '#' :: _ => []
  | c :: rest => c :: capUntilH rest

/-- Attempt of the section-header pattern (double hash, then greedy
whitespace, then the header case-insensitively, then greedy whitespace)
at the head of the text; on success returns the remaining text where the
lazy capture starts. -/
def hdrAt (hdr : List Char) (s : List Char) : Option (List Char) :=
  match s with
  | '#' :: '#' :: rest =>
    let r1 := rest.dropWhile isJsSpace
    if ciStarts hdr r1 then
      some ((r1.drop hdr.length).dropWhile isJsSpace)
    else none
  | _ => none

/-- Leftmost match of a section-header regex; returns the captured block
(up to the next double hash or the end of the text). -/
def findHeaderCap (hdr : List Char) : List Char → Option (List Char)
  | [] => none
  | c :: rest =>
    match hdrAt hdr (c :: rest) with
    | some tail => some (capUntilH tail)
    | none => findHeaderCap hdr rest

def hConv : List Char := "CONVERSATION OVERVIEW".data
def hPerf : List Char := "USER PERFORMANCE ANALYSIS".data
def hImprove : List Char := "IMPROVEMENT RECOMMENDATIONS".data
def hRating : List Char := "RATING".data

/-- Index of the first colon in the text, if any. -/
def colonIdx (s : List Char) : Option Nat := s.findIdx? (· == ':')

/-- Attempt of the score-line regex of parser.ts (optional dash, greedy
whitespace, a nonempty colon-free group, a colon, whitespace, digits) at
the head of the text; returns the first capture group and the digit value. -/
def scoreAttempt (s : List Char) : Option (List Char × Nat) :=
  match colonIdx s with
  | none => none
  | some q =>
    if q == 0 then none
    else
      let afterColon := s.drop (q + 1)
      let digits := (afterColon.dropWhile isJsSpace).takeWhile Char.isDigit
      if digits.isEmpty then none
      else
        let g1 :=
          if s.head? = some '-' ∧ 2 ≤ q then (s.drop 1).take (q - 1) else s.take q
        some (g1, digitsToNat digits)

/-- Leftmost match of the score-line regex anywhere in a line. -/
def scoreFind : List Char → Option (List Char × Nat)
  | [] => none
  | c :: rest =>
    match scoreAttempt (c :: rest) with
    | some r => some r
    | none => scoreFind rest

/-- Score rows parsed from the RATING capture: split into lines, strip a
leading run of asterisks, trim, drop empty lines, then parse each line
and canonicalise the category through the alias table. -/
def ratingParsedScores (cap : List Char) : List ScoreEntry :=
  let lines :=
    ((splitNl cap).map (fun l => trimL (l.dropWhile (· == '*')))).filter
      (fun l => !l.isEmpty)
  lines.filterMap (fun line =>
    (scoreFind line).map (fun pr =>
      let rawCat := normKey (trimL pr.1)
      let canonical := (aliasLookup rawCat).getD (listToStr (trimL pr.1))
      { category := canonical, score := pr.2 }))

/-- Index of the first entry with the given category, as the default
score map of parser.ts yields it. -/
def idxOfCat : List ScoreEntry → String → Option Nat
  | [], _ => none
  | e :: rest, c =>
    if e.category == c then some 0 else (idxOfCat rest c).map (· + 1)

def defaultIdx (c : String) : Option Nat := idxOfCat defaultScores c

/-- One merge step: a parsed score overwrites the default slot of its
category, or is appended when the category is not a default one. -/
def mergeStep (acc : List ScoreEntry) (p : ScoreEntry) : List ScoreEntry :=
  match defaultIdx p.category with
  | some i => acc.set i p
  | none => acc ++ [p]

/-- Merge of parsed scores into a fresh copy of the default table. -/
def mergeScores (ps : List ScoreEntry) : List ScoreEntry :=
  ps.foldl mergeStep defaultScores

/-- Capitalisation of the first character (speaker emphasis). -/
def capFirst : List Char → List Char
  | [] => []
  | c :: rest => c.toUpper :: rest

/-- Attempt of the speaker-label pattern (greedy whitespace, a nonempty
word, a colon) at a line start of the content; returns the whitespace
and the word. -/
def tryBold (s : List Char) : Option (List Char × List Char) :=
  let ws := s.takeWhile isJsSpace
  let sp := (s.drop ws.length).takeWhile isWordChar
  if sp.isEmpty then none
  else if (s.drop (ws.length + sp.length)).head? = some ':' then some (ws, sp)
  else none

/-- Global multiline replacement that bolds and capitalises speaker
labels at line starts, as the segment content post-processing does.
The fuel argument only forces structural termination: every step
consumes at least one character, so a fuel of one more than the length
is never exhausted. -/
def boldGo : Nat → Bool → List Char → List Char
  | 0, _, l => l
  | fuel + 1, atStart, l =>
    match l with
    | [] => []
    | c :: rest =>
      if atStart then
        match tryBold (c :: rest) with
        | some (ws, sp) =>
          ws ++ '*' :: '*' :: (capFirst sp ++ ':' :: '*' :: '*' ::
            boldGo fuel false (rest.drop (ws.length + sp.length)))
        | none => c :: boldGo fuel (c == '\n' || c == '\r') rest
      else c :: boldGo fuel (c == '\n' || c == '\r') rest

def boldSpeakers (l : List Char) : List Char := boldGo (l.length + 1) true l

def openTagC : List Char := "<segment:".data
def closeTagC : List Char := "</segment:".data
def closeTagPlain : List Char := "</segment>".data
def segTag : List Char := "Segment:".data

/-- Attempt of the opening tag pattern at the head of the text; on
success returns the index of the closing angle bracket within the text
after the tag literal, together with that text. -/
def openAt (s : List Char) : Option (Nat × List Char) :=
  if ciStarts openTagC s then
    let after := s.drop 9
    match after.findIdx? (· == '>') with
    | none => none
    | some q => if q == 0 then none else some (q, after)
  else none

/-- Backtracking search for greedy whitespace followed by the first
capture group (case-insensitively) and a closing angle bracket; tries
the whitespace count from k downward and returns the count used. -/
def backrefGtAt (g1 a : List Char) : Nat → Option Nat
  | 0 =>
    if ciStarts g1 a && (a.drop g1.length).head? = some '>' then some 0 else none
  | k + 1 =>
    if ciStarts g1 (a.drop (k + 1)) &&
        (a.drop (k + 1 + g1.length)).head? = some '>' then some (k + 1)
    else backrefGtAt g1 a k

/-- Attempt of the strategy-1 closing tag (titled, title must match the
opening title) at the head of the text; returns the length consumed. -/
def closeAt1 (g1 s : List Char) : Option Nat :=
  if ciStarts closeTagC s then
    let a := s.drop 10
    match backrefGtAt g1 a ((a.takeWhile isJsSpace).length) with
    | some k => some (10 + k + g1.length + 1)
    | none => none
  else none

/-- Attempt of the strategy-2 closing tag (titled, any title). -/
def closeAt2 (s : List Char) : Option Nat :=
  if ciStarts closeTagC s then
    let a := s.drop 10
    match a.findIdx? (· == '>') with
    | none => none
    | some r => if r == 0 then none else some (10 + r + 1)
  else none

/-- Attempt of the strategy-3 closing tag (generic untitled). -/
def closeAt3 (s : List Char) : Option Nat :=
  if ciStarts closeTagPlain s then some 10 else none

/-- Lazy scan for the first position where a closing-tag attempt
succeeds; returns the content length and the close length. -/
def findCloseBy (att : List Char → Option Nat) : List Char → Option (Nat × Nat)
  | [] => none
  | c :: rest =>
    match att (c :: rest) with
    | some n => some (0, n)
    | none => (findCloseBy att rest).map (fun pr => (pr.1 + 1, pr.2))

/-- Backtracking over the split between the greedy whitespace and the
nonempty title group of the opening tag, for strategy 1 where the
closing tag depends on the captured title; tries the whitespace count
from k downward. -/
def tryKs1 (after : List Char) (q : Nat) : Nat → Option (List Char × Nat × Nat)
  | 0 =>
    let g1 := after.take q
    (findCloseBy (closeAt1 g1) (after.drop (q + 1))).map (fun pr => (g1, pr))
  | k + 1 =>
    let g1 := (after.drop (k + 1)).take (q - (k + 1))
    match findCloseBy (closeAt1 g1) (after.drop (q + 1)) with
    | some pr => some (g1, pr)
    | none => tryKs1 after q k

/-- Full attempt of the strategy-1 regex at the head of the text. -/
def tryMatch1 (l : List Char) : Option (Segment × Nat) :=
  match openAt l with
  | none => none
  | some (q, after) =>
    let w := min ((after.takeWhile isJsSpace).length) (q - 1)
    match tryKs1 after q w with
    | none => none
    | some (g1, p, n) =>
      let title := listToStr (trimL g1)
      let content := listToStr (boldSpeakers (trimL ((after.drop (q + 1)).take p)))
      some ({ title := title, content := content }, 9 + q + 1 + p + n)

/-- Full attempt of the strategy-2 regex at the head of the text. -/
def tryMatch2 (l : List Char) : Option (Segment × Nat) :=
  match openAt l with
  | none => none
  | some (q, after) =>
    match findCloseBy closeAt2 (after.drop (q + 1)) with
    | none => none
    | some (p, n) =>
      let title := listToStr (trimL (after.take q))
      let content := listToStr (boldSpeakers (trimL ((after.drop (q + 1)).take p)))
      some ({ title := title, content := content }, 9 + q + 1 + p + n)

/-- Full attempt of the strategy-3 regex at the head of the text. -/
def tryMatch3 (l : List Char) : Option (Segment × Nat) :=
  match openAt l with
  | none => none
  | some (q, after) =>
    match findCloseBy closeAt3 (after.drop (q + 1)) with
    | none => none
    | some (p, n) =>
      let title := listToStr (trimL (after.take q))
      let content := listToStr (boldSpeakers (trimL ((after.drop (q + 1)).take p)))
      some ({ title := title, content := content }, 9 + q + 1 + p + n)

/-- Index of the first position at which the plain-text segment marker
occurs case-insensitively, or the length of the text when absent; this
is the lookahead boundary of the strategy-4 regex. -/
def idxOfSegTag : List Char → Nat
  | [] => 0
  | c :: rest => if ciStarts segTag (c :: rest) then 0 else idxOfSegTag rest + 1

/-- Attempt of the strategy-4 title line at a fixed whitespace split:
a nonempty newline-free title group, a literal newline, then lazy
content up to the next plain-text marker or the end. -/
def attempt4 (after : List Char) (k : Nat) : Option (List Char × List Char × Nat) :=
  let start := after.drop k
  let g1 := start.takeWhile (· ≠ '\n')
  if g1.isEmpty then none
  else
    match (start.drop g1.length).head? with
    | some _ =>
      let contentStart := start.drop (g1.length + 1)
      let p := idxOfSegTag contentStart
      some (g1, contentStart.take p, k + g1.length + 1 + p)
    | none => none

/-- Backtracking over the greedy whitespace of strategy 4, from k down. -/
def tryKs4 (after : List Char) : Nat → Option (List Char × List Char × Nat)
  | 0 => attempt4 after 0
  | k + 1 =>
    match attempt4 after (k + 1) with
    | some r => some r
    | none => tryKs4 after k

/-- Full attempt of the strategy-4 regex at the head of the text;
returns the raw title group, the raw content and the length consumed. -/
def tryMatch4 (l : List Char) : Option (List Char × List Char × Nat) :=
  if ciStarts segTag l then
    let after := l.drop 8
    match tryKs4 after ((after.takeWhile isJsSpace).length) with
    | some (g1, cnt, c4) => some (g1, cnt, 8 + c4)
    | none => none
  else none

/-- Global scan of a tag-based strategy over the detail text (fuelled
for structural termination; a fuel of one more than the length is never
exhausted since every step consumes at least one character). -/
def scanBy (att : List Char → Option (Segment × Nat)) : Nat → List Char → List Segment
  | 0, _ => []
  | fuel + 1, l =>
    match l with
    | [] => []
    | c :: rest =>
      match att (c :: rest) with
      | some (seg, k) => seg :: scanBy att fuel (rest.drop (k - 1))
      | none => scanBy att fuel rest

/-- Global scan of the strategy-4 regex, yielding raw matches. -/
def scan4 : Nat → List Char → List (List Char × List Char)
  | 0, _ => []
  | fuel + 1, l =>
    match l with
    | [] => []
    | c :: rest =>
      match tryMatch4 (c :: rest) with
      | some (t, cnt, k) => (t, cnt) :: scan4 fuel (rest.drop (k - 1))
      | none => scan4 fuel rest

def segs1 (d : String) : List Segment := scanBy tryMatch1 (d.data.length + 1) d.data

def segs2 (d : String) : List Segment := scanBy tryMatch2 (d.data.length + 1) d.data

def segs3 (d : String) : List Segment := scanBy tryMatch3 (d.data.length + 1) d.data

/-- Strategy-4 segments: raw plain-text matches whose trimmed content
is at least 10 characters long, with speaker labels emphasised. -/
def segs4 (d : String) : List Segment :=
  (scan4 (d.data.length + 1) d.data).filterMap (fun pr =>
    let trimmed := trimL pr.2
    if trimmed.length < 10 then none
    else some { title := listToStr (trimL pr.1),
                content := listToStr (boldSpeakers trimmed) })

/-- Segment extraction: the four strategies tried in order, stopping at
the first that yields at least one segment. -/
def extractSegments (d : String) : List Segment :=
  if (segs1 d).isEmpty then
    if (segs2 d).isEmpty then
      if (segs3 d).isEmpty then segs4 d
      else segs3 d
    else segs2 d
  else segs1 d

/-- JavaScript string falsiness of an optional string field. -/
def jsFalsyS : Option String → Bool
  | none => true
  | some t => t.data.isEmpty

/-- Summary field: the CONVERSATION OVERVIEW block, or the fallback to
the text before the first double hash, or to the first 500 characters. -/
def summaryField (s : List Char) : Option String :=
  match findHeaderCap hConv s with
  | some cap => some (listToStr (trimL cap))
  | none =>
    if (trimL s).isEmpty then none
    else
      let pre := trimL (capUntilH s)
      if pre.isEmpty then some (listToStr (s.take 500)) else some (listToStr pre)

/-- Feedback field: the USER PERFORMANCE ANALYSIS block, or the first
500 characters when the text is nonempty and the summary is falsy. -/
def feedbackField (s : List Char) (summary : Option String) : Option String :=
  match findHeaderCap hPerf s with
  | some cap => some (listToStr (trimL cap))
  | none =>
    if !(trimL s).isEmpty && jsFalsyS summary then some (listToStr (s.take 500))
    else none

/-- Suggestions field: the IMPROVEMENT RECOMMENDATIONS block; no fallback. -/
def suggestionsField (s : List Char) : Option String :=
  (findHeaderCap hImprove s).map (fun cap => listToStr (trimL cap))

/-- Scores field: the RATING block merged into the default table, or the
default table alone. -/
def scoresField (s : List Char) : List ScoreEntry :=
  match findHeaderCap hRating s with
  | some cap => mergeScores (ratingParsedScores cap)
  | none => defaultScores

/-- Body of the report parser after the JSON envelope has been
unwrapped into the summary text and the detail text. -/
def parserCore (summaryText detailText : String) : ParsedResult :=
  let s := summaryText.data
  { summary := summaryField s,
    feedback := feedbackField s (summaryField s),
    suggestions := suggestionsField s,
    segments := extractSegments detailText,
    scores := scoresField s }

/-! JSON envelope.  The public entry point of the report parser takes a
single JSON-encoded string; the built-in JSON.parse of the runtime is
modelled by a recursive-descent parser of the JSON grammar. -/

/-- JSON whitespace (narrower than the regex whitespace class). -/
def isJsonWs (c : Char) : Bool :=
  c == ' ' || c == '\t' || c == '\n' || c == '\r'

inductive JsonVal where
  | jnull : JsonVal
  | jbool : Bool → JsonVal
  | jnum : List Char → List Char → JsonVal
  | jstr : List Char → JsonVal
  | jarr : List JsonVal → JsonVal
  | jobj : List (List Char × JsonVal) → JsonVal
deriving Repr

def hexVal (c : Char) : Option Nat :=
  if c.isDigit then some (c.toNat - 48)
  else if 'a' ≤ c ∧ c ≤ 'f' then some (c.toNat - 87)
  else if 'A' ≤ c ∧ c ≤ 'F' then some (c.toNat - 55)
  else none

/-- Body of a JSON string after the opening quote: decoded characters
and the remaining text. -/
def pStringBody : List Char → Option (List Char × List Char)
  | [] => none
  | '"' :: rest => some ([], rest)
  | '\\' :: rest =>
    match rest with
    | 'u' :: a :: b :: c :: d :: rest2 =>
      match hexVal a, hexVal b, hexVal c, hexVal d with
      | some x, some y, some z, some w =>
        (pStringBody rest2).map (fun pr =>
          (Char.ofNat (((x * 16 + y) * 16 + z) * 16 + w) :: pr.1, pr.2))
      | _, _, _, _ => none
    | e :: rest2 =>
      let dec : Option Char :=
        if e == '"' then some '"'
        else if e == '\\' then some '\\'
        else if e == '/' then some '/'
        else if e == 'b' then some (Char.ofNat 8)
        else if e == 'f' then some (Char.ofNat 12)
        else if e == 'n' then some '\n'
        else if e == 'r' then some '\r'
        else if e == 't' then some '\t'
        else none
      match dec with
      | some ch => (pStringBody rest2).map (fun pr => (ch :: pr.1, pr.2))
      | none => none
    | [] => none
  | c :: rest =>
    if c.toNat < 32 then none
    else (pStringBody rest).map (fun pr => (c :: pr.1, pr.2))

/-- JSON number at the head of the text: integer digits and fraction
digits are kept (they decide truthiness); the exponent is validated. -/
def pNum (s : List Char) : Option (JsonVal × List Char) :=
  let s1 := match s with
    | '-' :: r => r
    | _ => s
  match s1 with
  | [] => none
  | c :: _ =>
    if !c.isDigit then none
    else
      let intPart := if c == '0' then ['0'] else s1.takeWhile Char.isDigit
      let r1 := s1.drop intPart.length
      let step2 : Option (List Char × List Char) :=
        match r1 with
        | '.' :: r2 =>
          let fr := r2.takeWhile Char.isDigit
          if fr.isEmpty then none else some (fr, r2.drop fr.length)
        | _ => some ([], r1)
      match step2 with
      | none => none
      | some (fr, r3) =>
        match r3 with
        | 'e' :: r4 =>
          let r5 := match r4 with
            | '+' :: r => r
            | '-' :: r => r
            | _ => r4
          let ex := r5.takeWhile Char.isDigit
          if ex.isEmpty then none
          else some (.jnum intPart fr, r5.drop ex.length)
        | 'E' :: r4 =>
          let r5 := match r4 with
            | '+' :: r => r
            | '-' :: r => r
            | _ => r4
          let ex := r5.takeWhile Char.isDigit
          if ex.isEmpty then none
          else some (.jnum intPart fr, r5.drop ex.length)
        | _ => some (.jnum intPart fr, r3)

mutual

/-- JSON value at the head of the text, fuelled. -/
def pVal : Nat → List Char → Option (JsonVal × List Char)
  | 0, _ => none
  | fuel + 1, s =>
    let s := s.dropWhile isJsonWs
    match s with
    | 'n' :: 'u' :: 'l' :: 'l' :: r => some (.jnull, r)
    | 't' :: 'r' :: 'u' :: 'e' :: r => some (.jbool true, r)
    | 'f' :: 'a' :: 'l' :: 's' :: 'e' :: r => some (.jbool false, r)
    | '"' :: r => (pStringBody r).map (fun pr => (.jstr pr.1, pr.2))
    | '[' :: r =>
      let r1 := r.dropWhile isJsonWs
      match r1 with
      | ']' :: r2 => some (.jarr [], r2)
      | _ => pArrTail fuel r1 []
    | '{' :: r =>
      let r1 := r.dropWhile isJsonWs
      match r1 with
      | '}' :: r2 => some (.jobj [], r2)
      | _ => pObjTail fuel r1 []
    | _ => pNum s

/-- Remaining items of a JSON array, fuelled. -/
def pArrTail : Nat → List Char → List JsonVal → Option (JsonVal × List Char)
  | 0, _, _ => none
  | fuel + 1, s, acc =>
    match pVal fuel s with
    | none => none
    | some (v, r) =>
      match r.dropWhile isJsonWs with
      | ']' :: r2 => some (.jarr (v :: acc).reverse, r2)
      | ',' :: r2 => pArrTail fuel r2 (v :: acc)
      | _ => none

/-- Remaining members of a JSON object, fuelled. -/
def pObjTail : Nat → List Char → List (List Char × JsonVal) →
    Option (JsonVal × List Char)
  | 0, _, _ => none
  | fuel + 1, s, acc =>
    match s.dropWhile isJsonWs with
    | '"' :: r =>
      match pStringBody r with
      | none => none
      | some (key, r1) =>
        match r1.dropWhile isJsonWs with
        | ':' :: r2 =>
          match pVal fuel r2 with
          | none => none
          | some (v, r3) =>
            match r3.dropWhile isJsonWs with
            | '}' :: r4 => some (.jobj ((key, v) :: acc).reverse, r4)
            | ',' :: r4 => pObjTail fuel r4 ((key, v) :: acc)
            | _ => none
        | _ => none
    | _ => none

end

/-- Model of JSON.parse: a value covering the whole input, or none. -/
def jsonParse (l : List Char) : Option JsonVal :=
  match pVal (l.length + 2) l with
  | some (v, rest) =>
    if (rest.dropWhile isJsonWs).isEmpty then some v else none
  | none => none

/-- Property access on a parsed value: a field of an object (for a
duplicated key the last occurrence wins), undefined otherwise. -/
def jget (v : JsonVal) (k : String) : Option JsonVal :=
  match v with
  | .jobj fields => (fields.reverse.find? (fun p => p.1 == k.data)).map (·.2)
  | _ => none

/-- JavaScript truthiness of a JSON value. -/
def jtruthy : JsonVal → Bool
  | .jnull => false
  | .jbool b => b
  | .jstr s => !s.isEmpty
  | .jnum ip fp => !(ip.all (· == '0') && fp.all (· == '0'))
  | .jarr _ => true
  | .jobj _ => true

def truthyOpt (o : Option JsonVal) : Option JsonVal :=
  o.bind (fun x => if jtruthy x then some x else none)

/-- Disjunction of two possibly-undefined values, as the logical-or of
the source picks the first truthy one. -/
def jsOr2 (a b : Option JsonVal) : Option JsonVal :=
  match truthyOpt a with
  | some x => some x
  | none => truthyOpt b

/-- Text taken from the first truthy of two fields, defaulting to the
empty string; a truthy non-string would make the subsequent regex
method call raise, which the source does not catch. -/
def fieldText (v : JsonVal) (k1 k2 : String) : Option String :=
  match jsOr2 (jget v k1) (jget v k2) with
  | none => some ""
  | some (.jstr s) => some (listToStr s)
  | some _ => none

/-- Default result of the report parser: null strings, no segments, a
fresh copy of the default score table. -/
def defaultResult : ParsedResult :=
  { summary := none, feedback := none, suggestions := none,
    segments := [], scores := defaultScores }

/-- Public entry point of the report parser: accepts one JSON-encoded
string carrying the summary and detail texts.  A JSON syntax error is
caught and yields the default result; none models an uncaught runtime
error (property access on null, or a regex call on a non-string). -/
def Parser (rawText : String) : Option ParsedResult :=
  match jsonParse rawText.data with
  | none => some defaultResult
  | some .jnull => none
  | some v =>
    match fieldText v "summaryAnalysis" "summary",
          fieldText v "detailedFeedback" "detail" with
    | some st, some dt => some (parserCore st dt)
    | _, _ => none

/-! Resilient call wrapper (retryWithBackoff). -/

/-- Error object as the retry wrapper inspects it. -/
structure JsError where
  retryable : Option Bool
  message : Option String
deriving DecidableEq, Repr

/-- Default retryable predicate: the retryable flag is strictly true,
or the message mentions a lost network connection or a timeout. -/
def defaultRetryable (e : JsError) : Bool :=
  if e.retryable == some true then true
  else
    match e.message with
    | some m =>
      if containsSub "Network connection lost".data m.data then true
      else if containsSub "timeout".data m.data then true
      else false
    | none => false

structure RetryOptions where
  maxRetries : Nat := 3
  initialDelay : Nat := 1000
  maxDelay : Nat := 10000
  retryable : JsError → Bool := defaultRetryable

/-- Observable outcome of a retried operation: the final result, the
number of invocations, and the list of waits inserted between them. -/
structure RetryTrace (α : Type) where
  outcome : Except JsError α
  calls : Nat
  delays : List Nat
deriving Repr

/-- Loop of the retry wrapper.  The operation is modelled as a function
from the invocation index to its outcome; the budget counts down from
maxRetries, so budget zero is the last allowed attempt. -/
def retryLoop (fn : Nat → Except JsError α) (retryable : JsError → Bool)
    (initialDelay maxDelay : Nat) : Nat → Nat → RetryTrace α
  | attempt, 0 =>
    match fn attempt with
    | .ok v => { outcome := .ok v, calls := 1, delays := [] }
    | .error e => { outcome := .error e, calls := 1, delays := [] }
  | attempt, budget + 1 =>
    match fn attempt with
    | .ok v => { outcome := .ok v, calls := 1, delays := [] }
    | .error e =>
      if retryable e then
        let d := min (initialDelay * 2 ^ attempt) maxDelay
        let rest := retryLoop fn retryable initialDelay maxDelay (attempt + 1) budget
        { outcome := rest.outcome, calls := rest.calls + 1, delays := d :: rest.delays }
      else { outcome := .error e, calls := 1, delays := [] }

/-- Retry with exponential backoff, as retryWithBackoff of the source. -/
def retryWithBackoff (fn : Nat → Except JsError α) (opts : RetryOptions) :
    RetryTrace α :=
  retryLoop fn opts.retryable opts.initialDelay opts.maxDelay 0 opts.maxRetries

/-- Retry options passed by the detail stage (transcriptDetailAgent.ts). -/
def detailAgentRetryOptions : RetryOptions :=
  { maxRetries := 2, initialDelay := 500, maxDelay := 5000 }

/-- Retry options passed by the analysis stage (transcriptAnalyzer.ts). -/
def analyzerRetryOptions : RetryOptions :=
  { maxRetries := 2, initialDelay := 500, maxDelay := 5000 }

/-- Retry options passed by the summary stage (scenarioGenerator.ts). -/
def summaryRetryOptions : RetryOptions :=
  { maxRetries := 2, initialDelay := 500, maxDelay := 5000 }

/-! Score extractor (extractScoresFromSummary). -/

/-- Attempt of the extractor line regex (a required dash or asterisk,
whitespace, a nonempty colon-free group, a colon, whitespace, digits)
at the head of the text. -/
def extScoreAt (s : List Char) : Option (List Char × Nat) :=
  match s with
  | [] => none
  | c :: rest =>
    if c == '-' || c == '*' then
      match colonIdx rest with
      | none => none
      | some q =>
        if q == 0 then none
        else
          let afterColon := rest.drop (q + 1)
          let digits := (afterColon.dropWhile isJsSpace).takeWhile Char.isDigit
          if digits.isEmpty then none
          else some (rest.take q, digitsToNat digits)
    else none

/-- Leftmost match of the extractor line regex anywhere in a line. -/
def extScoreFind : List Char → Option (List Char × Nat)
  | [] => none
  | c :: rest =>
    match extScoreAt (c :: rest) with
    | some r => some r
    | none => extScoreFind rest

/-- Assignment to a key of a plain object: an existing key is updated
in place, a new key is appended. -/
def setKey (m : List (String × Nat)) (k : String) (v : Nat) :
    List (String × Nat) :=
  if m.any (fun p => p.1 == k) then
    m.map (fun p => if p.1 == k then (k, v) else p)
  else m ++ [(k, v)]

def hasSub (hay : List Char) (needle : String) : Bool :=
  containsSub needle.data hay

/-- One line of the RATING block applied to the accumulated score map,
through the substring-based category dispatch of the extractor. -/
def extApplyLine (m : List (String × Nat)) (line : List Char) :
    List (String × Nat) :=
  match extScoreFind line with
  | none => m
  | some (g1, sc) =>
    let category := normKeyL (trimL g1)
    if hasSub category "empathy" then setKey m "empathy" sc
    else if hasSub category "clarity" then setKey m "clarity" sc
    else if hasSub category "assertiveness" then setKey m "assertiveness" sc
    else if hasSub category "persuasion" then setKey m "persuasion" sc
    else if hasSub category "activelistening" ||
        (hasSub category "active" && hasSub category "listening") then
      setKey m "activeListening" sc
    else if hasSub category "objectionhandling" ||
        (hasSub category "objection" && hasSub category "handling") then
      setKey m "objectionHandling" sc
    else if hasSub category "closingability" ||
        (hasSub category "closing" && hasSub category "ability") then
      setKey m "closingAbility" sc
    else if hasSub category "flexibility" || hasSub category "flexible" then
      setKey m "flexibility" sc
    else if hasSub category "openmindedness" || hasSub category "openminded" ||
        (hasSub category "open" && hasSub category "mind") then
      setKey m "flexibility" sc
    else m

/-- Score extractor: mines the RATING block of the summary text into a
map of metric keys, or none when there is no RATING section or no line
matched a known category. -/
def extractScoresFromSummary (summaryAnalysis : String) :
    Option (List (String × Nat)) :=
  match findHeaderCap hRating summaryAnalysis.data with
  | none => none
  | some ratingText =>
    let lines := ((splitNl ratingText).map trimL).filter (fun l => !l.isEmpty)
    let scores := lines.foldl extApplyLine []
    if scores.isEmpty then none else some scores

/-! Supporting lemmas for the retry wrapper. -/

lemma retryLoop_allFail (fn : Nat → Except JsError α) (p : JsError → Bool)
    (idel mdel : Nat) (h : ∀ k, ∃ e, fn k = .error e ∧ p e = true) :
    ∀ budget attempt,
      (retryLoop fn p idel mdel attempt budget).calls = budget + 1 ∧
      ∃ e, fn (attempt + budget) = .error e ∧
        (retryLoop fn p idel mdel attempt budget).outcome = .error e := by
  intro budget
  induction budget with
  | zero =>
    intro attempt
    obtain ⟨e, he, hp⟩ := h attempt
    exact ⟨by simp [retryLoop, he], e, by simpa using he, by simp [retryLoop, he]⟩
  | succ b ih =>
    intro attempt
    obtain ⟨e, he, hp⟩ := h attempt
    obtain ⟨hcalls, e2, he2, hout⟩ := ih (attempt + 1)
    refine ⟨by simp [retryLoop, he, hp, hcalls], e2, ?_, by simp [retryLoop, he, hp, hout]⟩
    have : attempt + (b + 1) = attempt + 1 + b := by omega
    rw [this]
    exact he2

lemma retryLoop_delays (fn : Nat → Except JsError α) (p : JsError → Bool)
    (idel mdel : Nat) :
    ∀ budget attempt i,
      i < (retryLoop fn p idel mdel attempt budget).delays.length →
      (retryLoop fn p idel mdel attempt budget).delays.get? i =
        some (min (idel * 2 ^ (attempt + i)) mdel) := by
  intro budget
  induction budget with
  | zero =>
    intro attempt i h
    rcases hfn : fn attempt with e | v <;> simp [retryLoop, hfn] at h
  | succ b ih =>
    intro attempt i h
    rcases hfn : fn attempt with e | v
    · rcases hp : p e with _ | _
      · simp [retryLoop, hfn, hp] at h
      · simp only [retryLoop, hfn, hp, if_true] at h ⊢
        rcases i with _ | j
        · simp
        · simp only [List.length_cons, Nat.add_lt_add_iff_right] at h
          simp only [List.get?_cons_succ]
          have harith : attempt + 1 + j = attempt + (j + 1) := by omega
          rw [← harith]
          exact ih (attempt + 1) j h
    · simp [retryLoop, hfn] at h

/-- C3.  For an operation that always rejects with a retryable error,
retry invokes it exactly maxRetries + 1 times and finally rejects with
the error raised by the last invocation. -/
theorem c3_retry_bound (fn : Nat → Except JsError α) (opts : RetryOptions)
    (h : ∀ k, ∃ e, fn k = .error e ∧ opts.retryable e = true) :
    (retryWithBackoff fn opts).calls = opts.maxRetries + 1 ∧
    ∃ e, fn opts.maxRetries = .error e ∧
      (retryWithBackoff fn opts).outcome = .error e := by
  have := retryLoop_allFail fn opts.retryable opts.initialDelay opts.maxDelay h
    opts.maxRetries 0
  simpa [retryWithBackoff] using this

def alwaysNetErr : JsError := { retryable := some true, message := none }

def failingOp : Nat → Except JsError Unit := fun _ => .error alwaysNetErr

def witOpts : RetryOptions := { maxRetries := 2, initialDelay := 500, maxDelay := 5000 }

/-- Witness for C3: with maxRetries 2 the operation runs 3 times and
the call rejects with the original error. -/
theorem c3_retry_bound_witness :
    (retryWithBackoff failingOp witOpts).calls = 3 ∧
    (retryWithBackoff failingOp witOpts).outcome = .error alwaysNetErr := by
  obtain ⟨hc, e, he, ho⟩ :=
    c3_retry_bound failingOp witOpts (fun k => ⟨alwaysNetErr, rfl, rfl⟩)
  have hee : alwaysNetErr = e := by
    have : Except.error (ε := JsError) (α := Unit) alwaysNetErr = .error e := he
    injection this
  exact ⟨hc, by rw [ho, hee]⟩

/-- C4.  An operation rejecting with a non-retryable error is invoked
exactly once and its error is re-raised; the default retryable
predicate holds exactly for errors flagged retryable or whose message
mentions a lost network connection or a timeout. -/
theorem c4_nonretryable (fn : Nat → Except JsError α) (opts : RetryOptions)
    (e : JsError) (h1 : fn 0 = .error e) (h2 : opts.retryable e = false)
    (e2 : JsError) :
    ((retryWithBackoff fn opts).calls = 1 ∧
      (retryWithBackoff fn opts).outcome = .error e) ∧
    (defaultRetryable e2 = true ↔
      (e2.retryable = some true ∨ ∃ m, e2.message = some m ∧
        (containsSub "Network connection lost".data m.data = true ∨
         containsSub "timeout".data m.data = true))) := by
  constructor
  · rcases hm : opts.maxRetries with _ | b <;>
      simp [retryWithBackoff, retryLoop, hm, h1, h2]
  · unfold defaultRetryable
    rcases e2 with ⟨rf, msg⟩
    rcases msg with _ | m
    · rcases rf with _ | b
      · simp
      · cases b <;> simp [beq_iff_eq]
    · rcases rf with _ | b
      · rcases h1 : containsSub "Network connection lost".data m.data with _ | _ <;>
          rcases h2 : containsSub "timeout".data m.data with _ | _ <;>
            simp [h1, h2]
      · cases b <;>
          rcases h1 : containsSub "Network connection lost".data m.data with _ | _ <;>
            rcases h2 : containsSub "timeout".data m.data with _ | _ <;>
              simp [h1, h2, beq_iff_eq]

def fatalErr : JsError := { retryable := none, message := some "bad input" }

def failingOnce : Nat → Except JsError Unit := fun _ => .error fatalErr

/-- Witness for C4: a non-retryable failure is raised after one call. -/
theorem c4_nonretryable_witness :
    (retryWithBackoff failingOnce {}).calls = 1 ∧
    (retryWithBackoff failingOnce {}).outcome = .error fatalErr :=
  (c4_nonretryable failingOnce {} fatalErr rfl rfl fatalErr).1

/-- C5.  Every wait recorded before a retry equals
min(initialDelay * 2 ^ attempt, maxDelay) for its attempt index. -/
theorem c5_backoff_delay (fn : Nat → Except JsError α) (opts : RetryOptions)
    (k : Nat) (h : k < (retryWithBackoff fn opts).delays.length) :
    (retryWithBackoff fn opts).delays.get? k =
      some (min (opts.initialDelay * 2 ^ k) opts.maxDelay) := by
  have := retryLoop_delays fn opts.retryable opts.initialDelay opts.maxDelay
    opts.maxRetries 0 k (by simpa [retryWithBackoff] using h)
  simpa [retryWithBackoff] using this

/-- Witness for C5: the second recorded wait of a failing run with
initial delay 500 and ceiling 5000 equals min(500 * 2, 5000) = 1000. -/
theorem c5_backoff_delay_witness :
    (retryWithBackoff failingOp witOpts).delays.get? 1 = some 1000 := by
  have hlen : 1 < (retryWithBackoff failingOp witOpts).delays.length := by decide
  rw [c5_backoff_delay failingOp witOpts 1 hlen]
  decide

/-- C7.  The score extractor maps the legacy synonym Open-Mindedness
(lower-cased and stripped of whitespace, hyphens and underscores during
normalisation) to the flexibility metric with the parsed value 40. -/
theorem c7_alias_normalization :
    extractScoresFromSummary "## RATING\n- Open-Mindedness: 40" =
      some [("flexibility", 40)] := by
  decide

/-- C8 counterexample.  The detail stage's backoff ceiling is not
strictly greater than the analysis stage's: both are 5000. -/
theorem c8_counterexample :
    ¬ (analyzerRetryOptions.maxDelay < detailAgentRetryOptions.maxDelay) := by
  decide

/-- C8 amended.  The three stage call sites pass identical retry
budgets: same retry count, same initial delay, and the same backoff
ceiling. -/
theorem c8_same_budgets :
    detailAgentRetryOptions.maxRetries = analyzerRetryOptions.maxRetries ∧
    detailAgentRetryOptions.initialDelay = analyzerRetryOptions.initialDelay ∧
    detailAgentRetryOptions.maxDelay = analyzerRetryOptions.maxDelay ∧
    detailAgentRetryOptions.maxRetries = summaryRetryOptions.maxRetries ∧
    detailAgentRetryOptions.initialDelay = summaryRetryOptions.initialDelay ∧
    detailAgentRetryOptions.maxDelay = summaryRetryOptions.maxDelay := by
  decide

/-- C9.  The report parser is a pure function of its input: two
evaluations on the same input yield identical results. -/
theorem c9_deterministic (s d r : String) :
    parserCore s d = parserCore s d ∧ Parser r = Parser r :=
  ⟨rfl, rfl⟩

/-- C10.  An input that is not valid JSON yields the default result:
null strings, no segments, and a fresh copy of the default score table;
the parser does not raise on such input. -/
theorem c10_invalid_json (s : String) (h : jsonParse s.data = none) :
    Parser s = some defaultResult := by
  unfold Parser
  rw [h]

/-- Witness for C10 at a concrete non-JSON input. -/
theorem c10_invalid_json_witness :
    jsonParse "not valid json".data = none ∧
    Parser "not valid json" = some defaultResult :=
  ⟨rfl, c10_invalid_json _ rfl⟩

/-! Supporting lemmas for the score-table invariant. -/

lemma idxOfCat_spec :
    ∀ (l : List ScoreEntry) (c : String) (i : Nat), idxOfCat l c = some i →
      ∃ h : i < l.length, (l.get ⟨i, h⟩).category = c := by
  intro l
  induction l with
  | nil => intro c i h; simp [idxOfCat] at h
  | cons e rest ih =>
    intro c i h
    rw [idxOfCat] at h
    split at h
    · rename_i hc
      cases h
      exact ⟨Nat.succ_pos _, by simpa [beq_iff_eq] using hc⟩
    · rw [Option.map_eq_some'] at h
      obtain ⟨j, hj, rfl⟩ := h
      obtain ⟨hlt, hcat⟩ := ih c j hj
      exact ⟨by simpa using Nat.succ_lt_succ hlt, by simpa using hcat⟩

/-- Invariant preserved by the score merge: every default slot keeps
its category. -/
def keepsCats (acc : List ScoreEntry) : Prop :=
  ∀ i (h : i < defaultScores.length),
    ∃ h2 : i < acc.length,
      (acc.get ⟨i, h2⟩).category = (defaultScores.get ⟨i, h⟩).category

lemma keepsCats_default : keepsCats defaultScores := fun _ h => ⟨h, rfl⟩

lemma keepsCats_step (acc : List ScoreEntry) (p : ScoreEntry) :
    keepsCats acc → keepsCats (mergeStep acc p) := by
  intro hk i hi
  unfold mergeStep
  cases hidx : defaultIdx p.category with
  | none =>
    obtain ⟨h2, hcat⟩ := hk i hi
    refine ⟨by simp; omega, ?_⟩
    simpa [List.getElem_append_left h2] using hcat
  | some j =>
    obtain ⟨hjlt, hjcat⟩ := idxOfCat_spec defaultScores p.category j hidx
    obtain ⟨h2, hcat⟩ := hk i hi
    by_cases hij : i = j
    · subst hij
      refine ⟨by simpa using h2, ?_⟩
      simp only [List.get_eq_getElem, List.getElem_set_self]
      obtain ⟨h3, hcat3⟩ := hk i hjlt
      simpa [List.get_eq_getElem] using hjcat.symm.trans (by rfl)
    · refine ⟨by simpa using h2, ?_⟩
      simpa [List.get_eq_getElem, List.getElem_set_ne (fun hh => hij hh.symm)]
        using hcat

lemma keepsCats_fold :
    ∀ (ps : List ScoreEntry) (acc : List ScoreEntry),
      keepsCats acc → keepsCats (ps.foldl mergeStep acc) := by
  intro ps
  induction ps with
  | nil => intro acc h; simpa using h
  | cons p rest ih =>
    intro acc h
    simpa [List.foldl_cons] using ih _ (keepsCats_step _ _ h)

lemma scoresField_keeps (s : List Char) : keepsCats (scoresField s) := by
  unfold scoresField
  split
  · exact keepsCats_fold _ _ keepsCats_default
  · exact keepsCats_default

/-- C1 counterexample.  At a concrete input the parsed scores contain
no Persuasion row (nor Objection Handling or Closing Ability), and the
Empathy row carries the parsed value 150, outside [0, 100]. -/
theorem c1_counterexample :
    ((parserCore "## RATING\n- Empathy: 150" "").scores.all
        (fun e => !(e.category == "Persuasion")) = true) ∧
    ((parserCore "## RATING\n- Empathy: 150" "").scores.any
        (fun e => e.category == "Empathy" && decide (100 < e.score)) = true) := by
  decide

/-- C1 amended.  For every pair of input texts the scores are nonempty
and contain each category of the built-in default table (Empathy,
Clarity, Flexibility, Assertiveness, Active Listening, Conflict
Management) at least once; scores are nonnegative integers but are not
bounded by 100, and the canonical categories absent from the default
table need not appear. -/
theorem c1_score_completeness (s d : String) :
    (parserCore s d).scores ≠ [] ∧
    defaultScores.all (fun e =>
      (parserCore s d).scores.any (fun e2 => e2.category == e.category)) = true := by
  have hk : keepsCats (parserCore s d).scores := scoresField_keeps s.data
  constructor
  · obtain ⟨h2, _⟩ := hk 0 (by decide)
    intro hnil
    rw [hnil] at h2
    simp at h2
  · rw [List.all_eq_true]
    intro e he
    rw [List.any_eq_true]
    obtain ⟨⟨i, hlt⟩, rfl⟩ := List.mem_iff_get.mp he
    obtain ⟨h2, hcat⟩ := hk i hlt
    exact ⟨_, List.get_mem _ _ _, by simpa [beq_iff_eq] using hcat⟩

lemma isEmpty_false_of_ne {α : Type} {l : List α} (h : l ≠ []) : l.isEmpty = false := by
  cases l
  · exact absurd rfl h
  · rfl

lemma ne_of_isEmpty_false {α : Type} {l : List α} (h : l.isEmpty = false) : l ≠ [] := by
  cases l
  · simp at h
  · simp

def c2Input : String := "The rep greeted the customer warmly"

/-- C2 counterexample.  At a concrete nonempty input with no section
markers, the summary falls back to the raw text but feedback and
suggestions remain null, so not all three string fields fall back. -/
theorem c2_counterexample :
    (findHeaderCap hConv c2Input.data = none ∧
     findHeaderCap hPerf c2Input.data = none ∧
     findHeaderCap hImprove c2Input.data = none ∧
     findHeaderCap hRating c2Input.data = none ∧
     trimL c2Input.data ≠ []) ∧
    (parserCore c2Input "").summary = some "The rep greeted the customer warmly" ∧
    (parserCore c2Input "").feedback = none ∧
    (parserCore c2Input "").suggestions = none := by
  decide

/-- C2 amended.  For a nonempty input in which none of the four section
headers is found, the summary falls back to truncated raw text and is
non-null, while feedback and suggestions remain null: the feedback
fallback fires only when the summary is falsy, which cannot happen
here, and suggestions has no fallback at all. -/
theorem c2_no_header_fallback (s d : String)
    (h1 : findHeaderCap hConv s.data = none)
    (h2 : findHeaderCap hPerf s.data = none)
    (h3 : findHeaderCap hImprove s.data = none)
    (_h4 : findHeaderCap hRating s.data = none)
    (h5 : trimL s.data ≠ []) :
    (parserCore s d).summary ≠ none ∧ (parserCore s d).feedback = none ∧
    (parserCore s d).suggestions = none := by
  have hsne : s.data ≠ [] := by
    intro h
    apply h5
    rw [h]
    rfl
  have hproj1 : (parserCore s d).summary = summaryField s.data := rfl
  have hproj2 : (parserCore s d).feedback =
    feedbackField s.data (summaryField s.data) := rfl
  have hproj3 : (parserCore s d).suggestions = suggestionsField s.data := rfl
  have hempty : (trimL s.data).isEmpty = false := isEmpty_false_of_ne h5
  have hsum : ∃ t, t ≠ [] ∧ summaryField s.data = some (listToStr t) := by
    by_cases hpre : (trimL (capUntilH s.data)).isEmpty = true
    · refine ⟨s.data.take 500, ?_, by simp [summaryField, h1, hempty, hpre]⟩
      rcases hsd : s.data with _ | ⟨c, rest⟩
      · exact absurd hsd hsne
      · intro hc
        have hlen := congrArg List.length hc
        simp [List.length_take] at hlen
    · have hpre2 : (trimL (capUntilH s.data)).isEmpty = false := by
        cases hval : (trimL (capUntilH s.data)).isEmpty
        · rfl
        · exact absurd hval hpre
      exact ⟨trimL (capUntilH s.data), ne_of_isEmpty_false hpre2,
        by simp [summaryField, h1, hempty, hpre2]⟩
  obtain ⟨t, htne, hts⟩ := hsum
  have hfalsy : jsFalsyS (summaryField s.data) = false := by
    rw [hts]
    simpa [jsFalsyS, listToStr] using isEmpty_false_of_ne htne
  refine ⟨?_, ?_, ?_⟩
  · rw [hproj1, hts]
    simp
  · rw [hproj2]
    unfold feedbackField
    rw [h2]
    simp [hfalsy]
  · rw [hproj3]
    unfold suggestionsField
    rw [h3]
    rfl

/-- Witness for C2 (amended) at a concrete header-free input. -/
theorem c2_no_header_fallback_witness :
    (parserCore c2Input "x").summary ≠ none ∧
    (parserCore c2Input "x").feedback = none ∧
    (parserCore c2Input "x").suggestions = none :=
  c2_no_header_fallback c2Input "x" (by decide) (by decide) (by decide)
    (by decide) (by decide)

/-! Supporting lemmas for the segment strategies. -/

lemma capFirst_length (l : List Char) : (capFirst l).length = l.length := by
  cases l <;> simp [capFirst]

lemma boldGo_succ_cons (n : Nat) (b : Bool) (c : Char) (rest : List Char) :
    boldGo (n + 1) b (c :: rest) =
      if b then
        match tryBold (c :: rest) with
        | some (ws, sp) =>
          ws ++ '*' :: '*' :: (capFirst sp ++ ':' :: '*' :: '*' ::
            boldGo n false (rest.drop (ws.length + sp.length)))
        | none => c :: boldGo n (c == '\n' || c == '\r') rest
      else c :: boldGo n (c == '\n' || c == '\r') rest := rfl

lemma boldGo_length :
    ∀ (fuel : Nat) (b : Bool) (l : List Char), l.length ≤ (boldGo fuel b l).length := by
  intro fuel
  induction fuel with
  | zero => intro b l; exact Nat.le_refl _
  | succ n ih =>
    intro b l
    cases l with
    | nil => exact Nat.zero_le _
    | cons c rest =>
      rw [boldGo_succ_cons]
      split
      · cases htb : tryBold (c :: rest) with
        | none =>
          have := ih (c == '\n' || c == '\r') rest
          simp
          omega
        | some pr =>
          obtain ⟨ws, sp⟩ := pr
          have hrec := ih false (rest.drop (ws.length + sp.length))
          simp only [List.length_append, List.length_cons, capFirst_length,
            List.length_drop] at hrec ⊢
          omega
      · have := ih (c == '\n' || c == '\r') rest
        simp
        omega

lemma boldSpeakers_length (l : List Char) : l.length ≤ (boldSpeakers l).length :=
  boldGo_length (l.length + 1) true l

/-- C6.  The segment strategies are tried in the fixed order 1-4; the
first that yields at least one segment provides the result and the
later ones are never applied; every segment produced by the plain-text
strategy has content of at least 10 characters (shorter matches are
discarded before the speaker emphasis, which never shortens text). -/
theorem c6_strategy_order (d : String) :
    (segs1 d ≠ [] → extractSegments d = segs1 d) ∧
    (segs1 d = [] → segs2 d ≠ [] → extractSegments d = segs2 d) ∧
    (segs1 d = [] → segs2 d = [] → segs3 d ≠ [] → extractSegments d = segs3 d) ∧
    (segs1 d = [] → segs2 d = [] → segs3 d = [] → extractSegments d = segs4 d) ∧
    (∀ seg ∈ segs4 d, 10 ≤ seg.content.length) := by
  refine ⟨?_, ?_, ?_, ?_, ?_⟩
  · intro h
    simp [extractSegments, isEmpty_false_of_ne h]
  · intro ha hne
    simp [extractSegments, ha, isEmpty_false_of_ne hne]
  · intro ha hb hne
    simp [extractSegments, ha, hb, isEmpty_false_of_ne hne]
  · intro ha hb hc
    simp [extractSegments, ha, hb, hc]
  · intro seg hmem
    unfold segs4 at hmem
    rw [List.mem_filterMap] at hmem
    obtain ⟨pr, hpr, heq⟩ := hmem
    dsimp only at heq
    split at heq
    · exact absurd heq (by simp)
    · rename_i hlen
      cases heq
      have h2 := boldSpeakers_length (trimL pr.2)
      simp only [listToStr, String.length]
      omega

def tagDetail : String := "<segment:Opening>\nuser: Hi there\n</segment:Opening>"

def plainDetail : String := "Segment: Opening\nuser: Hi there my friend"

/-- Witness for C6: with well-formed matched tags strategy 1 fires and
provides the result; with only the plain-text form strategies 1-3 find
nothing and strategy 4 yields a segment. -/
theorem c6_strategy_order_witness :
    (segs1 tagDetail ≠ [] ∧ extractSegments tagDetail = segs1 tagDetail) ∧
    (segs1 plainDetail = [] ∧ segs2 plainDetail = [] ∧ segs3 plainDetail = [] ∧
      extractSegments plainDetail = segs4 plainDetail ∧ segs4 plainDetail ≠ []) := by
  have h1 := (c6_strategy_order tagDetail).1
  have h4 := (c6_strategy_order plainDetail).2.2.2.1
  have e1 : segs1 tagDetail ≠ [] := by decide
  have ep1 : segs1 plainDetail = [] := by decide
  have ep2 : segs2 plainDetail = [] := by decide
  have ep3 : segs3 plainDetail = [] := by decide
  have ep4 : segs4 plainDetail ≠ [] := by decide
  exact ⟨⟨e1, h1 e1⟩, ⟨ep1, ep2, ep3, h4 ep1 ep2 ep3, ep4⟩⟩

end SalesCoach
